import Mathlib

/-!
Shallow embedding of the card-passing game engine (`src/main.rs`) and
verification of its specification.

Rust `u8`/`usize` arithmetic is modelled with `Nat`; overflow questions are
treated separately (the sums involved are shown to stay far below `2^8`).
Rust `panic!`/`assert!` (contract violations) are modelled by `Option`
results (`none` = panic) or a dedicated `panic` outcome; `Vec` is modelled
by `List` in the same element order (`push` appends at the end, `pop`
removes the last element, as `Vec::push`/`Vec::pop` do).

Randomness is modelled by explicit oracles: the shuffle becomes a function
`f : List Card → List Card` (assumed to be a permutation where relevant) and
the `Strategy` trait becomes a function argument.
-/

/-- `enum Suit` (main.rs lines 6-12). -/
inductive Suit : Type where
  | Spades : Suit
  | Hearts : Suit
  | Clubs : Suit
  | Diamonds : Suit
deriving DecidableEq, Repr

/-- `Suit::is_red` (main.rs lines 15-17): Hearts and Diamonds are red. -/
def Suit.is_red : Suit → Bool
  | .Hearts => true
  | .Diamonds => true
  | .Spades => false
  | .Clubs => false

/-- `enum Card` (main.rs lines 31-36). Ranks and joker indices are `Nat`. -/
inductive Card : Type where
  | Regular : Suit → Nat → Card
  | Joker : Nat → Card
  | Special : Suit → Card
deriving DecidableEq, Repr

/-- `Card::new` (main.rs lines 53-64).  The `assert!(1 <= num && num < 14)`
is modelled by returning `none` (panic) outside that range. -/
def Card.new (suit : Suit) (num : Nat) : Option Card :=
  if 1 ≤ num ∧ num < 14 then
    some (if num = 12 ∧ suit = Suit.Diamonds then Card.Special suit
          else if num = 11 ∧ suit = Suit.Spades then Card.Special suit
          else Card.Regular suit num)
  else none

/-- `struct Deck` (main.rs lines 66-69): the `Vec<Card>` in its order. -/
structure Deck : Type where
  cards : List Card
deriving DecidableEq, Repr

/-- `struct Hand` (main.rs lines 113-116). -/
structure Hand : Type where
  cards : List Card
deriving DecidableEq, Repr

/-- `Deck::empty` (main.rs lines 72-76). -/
def Deck.empty : Deck := ⟨[]⟩

/-- `Deck::new` (main.rs lines 78-91): 4 suits × ranks 1..13 built through
`Card::new` (always in range, hence `filterMap`), then `jokers` jokers. -/
def Deck.new (jokers : Nat) : Deck :=
  ⟨([Suit.Spades, Suit.Hearts, Suit.Clubs, Suit.Diamonds].flatMap fun suit =>
      (List.range' 1 13).filterMap fun num => Card.new suit num) ++
    (List.range jokers).map Card.Joker⟩

/-- `Deck::shuffle` (main.rs lines 93-95) with the rng abstracted into a
reordering function applied to the contents. -/
def Deck.shuffleWith (f : List Card → List Card) (d : Deck) : Deck :=
  ⟨f d.cards⟩

/-- `Deck::push` (main.rs lines 97-99): `Vec::push` appends at the end. -/
def Deck.push (d : Deck) (card : Card) : Deck :=
  ⟨d.cards ++ [card]⟩

/-- `Deck::pop` (main.rs lines 101-103): `Vec::pop` removes the last card. -/
def Deck.pop (d : Deck) : Option Card × Deck :=
  match d.cards.getLast? with
  | some c => (some c, ⟨d.cards.dropLast⟩)
  | none => (none, d)

/-- `Deck::take` (main.rs lines 105-110): append all of the hand's cards in
order, then clear the hand.  Returns the updated deck and hand. -/
def Deck.take (d : Deck) (h : Hand) : Deck × Hand :=
  (⟨d.cards ++ h.cards⟩, ⟨[]⟩)

/-- `enum WinCondition` (main.rs lines 118-124). -/
inductive WinCondition : Type where
  | FiveCards : WinCondition
  | TwentyFive : WinCondition
  | Special : WinCondition
  | Joker : WinCondition
deriving DecidableEq, Repr

/-- `enum HandSum` (main.rs lines 126-130). -/
inductive HandSum : Type where
  | Win : WinCondition → HandSum
  | NoWin : Nat → HandSum
deriving DecidableEq, Repr

/-- `HandSum::no_win` (main.rs lines 132-139): panics (`none`) on `Win`. -/
def HandSum.no_win : HandSum → Option Nat
  | .NoWin sum => some sum
  | .Win _ => none

/-- `Hand::new` (main.rs lines 142-146). -/
def Hand.new : Hand := ⟨[]⟩

/-- The loop of `Hand::hand_sum` (main.rs lines 165-173): accumulates `sum`
and `aces` over the cards, returning early on a Joker or Special card; `len`
is the full hand length used by the final five-card check. -/
def handSumGo (len : Nat) : List Card → Nat → Nat → HandSum
  | [], sum, aces =>
    if len = 5 then HandSum.Win WinCondition.FiveCards
    else if sum = 25 ∨ (sum = 12 ∧ 1 ≤ aces) then HandSum.Win WinCondition.TwentyFive
    else HandSum.NoWin sum
  | Card.Regular _ n :: rest, sum, aces =>
    handSumGo len rest (sum + n) (if n = 1 then aces + 1 else aces)
  | Card.Joker _ :: _, _, _ => HandSum.Win WinCondition.Joker
  | Card.Special _ :: _, _, _ => HandSum.Win WinCondition.Special

/-- `Hand::hand_sum` (main.rs lines 164-181). -/
def Hand.hand_sum (h : Hand) : HandSum :=
  handSumGo h.cards.length h.cards 0 0

/-- `Hand::can_accept` (main.rs lines 148-157).  `none` models the
`panic!("can_accept() on winning hand")`; note the early `return true` for
Jokers and Specials happens before the hand is evaluated. -/
def Hand.can_accept (h : Hand) (card : Card) : Option Bool :=
  match card with
  | Card.Joker _ => some true
  | Card.Special _ => some true
  | Card.Regular _ n =>
    match h.hand_sum with
    | HandSum.Win _ => none
    | HandSum.NoWin sum => some (decide (sum + n ≤ 25))

/-- `Hand::accept` (main.rs lines 159-162): `assert!(self.can_accept(card))`
then push; `none` models a panic (either the assert failing or `can_accept`
itself panicking). -/
def Hand.accept (h : Hand) (card : Card) : Option Hand :=
  match h.can_accept card with
  | some true => some ⟨h.cards ++ [card]⟩
  | some false => none
  | none => none

/-- `struct Game` (main.rs lines 184-190). -/
structure Game : Type where
  deck : Deck
  discard : Deck
  players : List Hand
  round : Nat
deriving DecidableEq, Repr

/-- `struct RoundResult` (main.rs lines 192-198). -/
structure RoundResult : Type where
  giver : Nat
  receiver : Option Nat
  card : Card
  win : Option WinCondition
deriving DecidableEq, Repr

/-- `Game::new` (main.rs lines 220-229). -/
def Game.new (players : Nat) (jokers : Nat) : Game :=
  { deck := Deck.new jokers
    discard := Deck.empty
    players := List.replicate players Hand.new
    round := 0 }

/-- `Game::shuffle` (main.rs lines 231-233): shuffles the deck only. -/
def Game.shuffleWith (f : List Card → List Card) (g : Game) : Game :=
  { g with deck := g.deck.shuffleWith f }

/-- `Game::pop_deck` (main.rs lines 235-244): on an empty deck, swap deck
and discard, shuffle the new deck, and retry the pop once. -/
def Game.pop_deck (f : List Card → List Card) (g : Game) : Option Card × Game :=
  match g.deck.pop with
  | (some c, d) => (some c, { g with deck := d })
  | (none, _) =>
    match (g.discard.shuffleWith f).pop with
    | (some c, d) => (some c, { g with deck := d, discard := g.deck })
    | (none, d) => (none, { g with deck := d, discard := g.deck })

/-- Outcome of one `Game::step` call:  `exhausted` models `return None`
(deck and discard both empty), `panic` models any contract violation
reached during the step, `ok r g` models `Some(r)` together with the
mutated game state. -/
inductive StepOutcome : Type where
  | exhausted : StepOutcome
  | panic : StepOutcome
  | ok : RoundResult → Game → StepOutcome
deriving DecidableEq, Repr

/-- The eligibility loop of `Game::step` (main.rs lines 258-265), collecting
the indices (offset by `i`) of hands that can accept the card; `none` if any
`can_accept` call panics. -/
def eligibleIdx (card : Card) : List Hand → Nat → Option (List Nat)
  | [], _ => some []
  | h :: rest, i =>
    match h.can_accept card with
    | none => none
    | some true => (eligibleIdx card rest (i + 1)).map fun l => i :: l
    | some false => eligibleIdx card rest (i + 1)

/-- The receiver computation of `Game::step` (main.rs lines 257-283).
Returns `none` on a contract violation (a `can_accept` panic, or the
strategy's choice failing the bounds / eligibility asserts), otherwise the
optional receiver index.  In the red multi-eligible case the Rust loop's
`one` variable ends up holding the last eligible index, hence `getLast?`. -/
def chooseReceiver (strat : Nat → List Hand → Card → Nat)
    (players : List Hand) (card : Card) (isRed : Bool) (giver : Nat) :
    Option (Option Nat) :=
  if isRed then
    match eligibleIdx card players 0 with
    | none => none
    | some idxs =>
      match idxs.length with
      | 0 => some none
      | 1 => some idxs.getLast?
      | _ + 2 =>
        let j := strat giver players card
        match players.get? j with
        | none => none
        | some hj =>
          match hj.can_accept card with
          | some true => some (some j)
          | some false => none
          | none => none
  else
    match players.get? giver with
    | none => none
    | some hg =>
      match hg.can_accept card with
      | some true => some (some giver)
      | some false => some none
      | none => none

/-- The resolution block of `Game::step` (main.rs lines 284-300), applied to
the state `g1` left after the draw. -/
def Game.resolve (g1 : Game) (giver : Nat) (card : Card)
    (receiver : Option Nat) : StepOutcome :=
  match receiver with
  | some i =>
    match card with
    | Card.Special _ =>
      StepOutcome.ok ⟨giver, receiver, card, some WinCondition.Special⟩
        { g1 with discard := g1.discard.push card, round := g1.round + 1 }
    | _ =>
      match g1.players.get? i with
      | none => StepOutcome.panic
      | some hi =>
        match hi.accept card with
        | none => StepOutcome.panic
        | some hi' =>
          match hi'.hand_sum with
          | HandSum.Win cond =>
            let td := g1.discard.take hi'
            StepOutcome.ok ⟨giver, receiver, card, some cond⟩
              { g1 with discard := td.1,
                        players := g1.players.set i td.2,
                        round := g1.round + 1 }
          | HandSum.NoWin _ =>
            StepOutcome.ok ⟨giver, receiver, card, none⟩
              { g1 with players := g1.players.set i hi',
                        round := g1.round + 1 }
  | none =>
    StepOutcome.ok ⟨giver, none, card, none⟩
      { g1 with discard := g1.discard.push card, round := g1.round + 1 }

/-- The card-color computation of `Game::step` (main.rs lines 252-255):
Regular cards inherit their suit's redness, Jokers and Specials are never
red. -/
def Card.isRed : Card → Bool
  | Card.Regular s _ => s.is_red
  | Card.Joker _ => false
  | Card.Special _ => false

/-- `Game::step` (main.rs lines 246-308).  `f` abstracts the rng used by a
possible reshuffle, `strat` the `Strategy` trait object.  `round %
players.len()` panics in Rust when there are no players, hence the explicit
length-zero check. -/
def Game.step (f : List Card → List Card)
    (strat : Nat → List Hand → Card → Nat) (g : Game) : StepOutcome :=
  match g.pop_deck f with
  | (none, _) => StepOutcome.exhausted
  | (some card, g1) =>
    if g1.players.length = 0 then StepOutcome.panic
    else
      match chooseReceiver strat g1.players card card.isRed
          (g1.round % g1.players.length) with
      | none => StepOutcome.panic
      | some receiver => g1.resolve (g1.round % g1.players.length) card receiver

/-- All cards present in the game state, across the three kinds of
containers (deck, discard pile, every player's hand). -/
def Game.allCards (g : Game) : List Card :=
  g.deck.cards ++ g.discard.cards ++ g.players.flatMap Hand.cards

/-- Sum of the ranks of the Regular cards of a list, as accumulated by
`Hand::hand_sum`. -/
def ordSum : List Card → Nat
  | [] => 0
  | Card.Regular _ n :: rest => n + ordSum rest
  | Card.Joker _ :: rest => ordSum rest
  | Card.Special _ :: rest => ordSum rest

/-- Number of rank-1 (ace) Regular cards of a list. -/
def aceCount : List Card → Nat
  | [] => 0
  | Card.Regular _ n :: rest => (if n = 1 then 1 else 0) + aceCount rest
  | Card.Joker _ :: rest => aceCount rest
  | Card.Special _ :: rest => aceCount rest

/-- A card is a Regular (suit, rank) card. -/
def Card.isReg : Card → Bool
  | Card.Regular _ _ => true
  | Card.Joker _ => false
  | Card.Special _ => false

/-- Game states reachable from `Game::new`: the initial state, shuffles of
the deck (the rng abstracted as an arbitrary permutation of the contents),
and any `step` that returns a result. -/
inductive Reachable (p jokers : Nat) : Game → Prop where
  | init : Reachable p jokers (Game.new p jokers)
  | shuffle {g : Game} (f : List Card → List Card) :
      (∀ l, (f l).Perm l) → Reachable p jokers g →
      Reachable p jokers (g.shuffleWith f)
  | step {g g' : Game} (f : List Card → List Card)
      (strat : Nat → List Hand → Card → Nat) (r : RoundResult) :
      (∀ l, (f l).Perm l) → Reachable p jokers g →
      Game.step f strat g = StepOutcome.ok r g' → Reachable p jokers g'

/-- The per-hand invariant maintained by the engine at step boundaries: the
hand evaluates to `NoWin` of its Regular-rank sum, that sum is at most 24,
and the hand holds at most 4 cards. -/
def HandInv (h : Hand) : Prop :=
  h.hand_sum = HandSum.NoWin (ordSum h.cards) ∧ ordSum h.cards ≤ 24 ∧
  h.cards.length ≤ 4

/-- A Regular card's rank lies in `[1,13]` (vacuously true for the other
variants); used to bound the ranks found in a standard deck. -/
def rankOk : Card → Bool
  | Card.Regular _ n => decide (1 ≤ n ∧ n ≤ 13)
  | Card.Joker _ => true
  | Card.Special _ => true

/-- The `hand_sum` loop returns `Win Joker` as soon as it meets a Joker,
provided every earlier card is Regular. -/
lemma handSumGo_joker (len : Nat) (pre : List Card) (j : Nat)
    (rest : List Card) (s a : Nat) (hpre : ∀ c ∈ pre, c.isReg = true) :
    handSumGo len (pre ++ Card.Joker j :: rest) s a =
      HandSum.Win WinCondition.Joker := by
  induction pre generalizing s a with
  | nil => simp [handSumGo]
  | cons c pre ih =>
    have hc : c.isReg = true := hpre c (List.mem_cons_self c pre)
    match c, hc with
    | Card.Regular su n, _ =>
      simpa [handSumGo] using
        ih _ _ (fun c hc => hpre c (List.mem_cons_of_mem _ hc))

/-- On an all-Regular list the `hand_sum` loop never returns early and ends
with the accumulated sum and ace count. -/
lemma handSumGo_regular (len : Nat) (l : List Card) (s a : Nat)
    (hl : ∀ c ∈ l, c.isReg = true) :
    handSumGo len l s a =
      (if len = 5 then HandSum.Win WinCondition.FiveCards
       else if s + ordSum l = 25 ∨ (s + ordSum l = 12 ∧ 1 ≤ a + aceCount l)
         then HandSum.Win WinCondition.TwentyFive
       else HandSum.NoWin (s + ordSum l)) := by
  induction l generalizing s a with
  | nil => simp [handSumGo, ordSum, aceCount]
  | cons c l ih =>
    have hc : c.isReg = true := hl c (List.mem_cons_self c l)
    match c, hc with
    | Card.Regular su n, _ =>
      rw [handSumGo, ih _ _ (fun c hc => hl c (List.mem_cons_of_mem _ hc))]
      have h1 : s + ordSum (Card.Regular su n :: l) = s + n + ordSum l := by
        simp [ordSum]; omega
      have h2 : a + aceCount (Card.Regular su n :: l) =
          (if n = 1 then a + 1 else a) + aceCount l := by
        simp only [aceCount]
        by_cases hn : n = 1
        · rw [if_pos hn, if_pos hn]; omega
        · rw [if_neg hn, if_neg hn]; omega
      rw [h1, h2]

/-- If the `hand_sum` loop returns `NoWin sum`, every card of the list is
Regular, the reported sum is the accumulator plus the Regular-rank sum, and
the loop's side conditions all failed. -/
lemma handSumGo_noWin (len : Nat) (l : List Card) (s a sum : Nat)
    (hs : handSumGo len l s a = HandSum.NoWin sum) :
    (∀ c ∈ l, c.isReg = true) ∧ sum = s + ordSum l ∧ len ≠ 5 ∧ sum ≠ 25 ∧
      ¬(sum = 12 ∧ 1 ≤ a + aceCount l) := by
  induction l generalizing s a with
  | nil =>
    rw [handSumGo] at hs
    split at hs
    · exact absurd hs (by simp)
    · split at hs
      · exact absurd hs (by simp)
      · rename_i h5 hw
        obtain rfl : sum = s := by simpa using hs.symm
        simp only [ordSum, aceCount]
        refine ⟨by simp, by omega, h5, ?_, ?_⟩ <;> tauto
  | cons c l ih =>
    match c with
    | Card.Regular su n =>
      rw [handSumGo] at hs
      obtain ⟨hreg, hsum, h5, h25, h12⟩ := ih _ _ hs
      refine ⟨?_, ?_, h5, h25, ?_⟩
      · intro c hc
        rcases List.mem_cons.mp hc with rfl | hc
        · rfl
        · exact hreg c hc
      · simp only [ordSum]; omega
      · intro ⟨h12', hace⟩
        refine h12 ⟨h12', ?_⟩
        by_cases hn : n = 1 <;> simp [aceCount, hn] at hace ⊢ <;> omega
    | Card.Joker j => exact absurd hs (by simp [handSumGo])
    | Card.Special su => exact absurd hs (by simp [handSumGo])

/-- If `hand_sum` returns `NoWin`, every card of the hand is Regular and
the reported sum is the hand's Regular-rank sum. -/
lemma handSum_noWin_regular (h : Hand) (sum : Nat)
    (hs : h.hand_sum = HandSum.NoWin sum) :
    (∀ c ∈ h.cards, c.isReg = true) ∧ sum = ordSum h.cards := by
  obtain ⟨hreg, hsum, -⟩ := handSumGo_noWin _ _ _ _ _ hs
  exact ⟨hreg, by simpa using hsum⟩

/-- C1 (counterexample): a hand holding a Special card followed by a Joker
contains a Joker, yet `hand_sum` returns `Win Special`, not `Win Joker` —
the loop returns at the first non-Regular card it meets. -/
theorem c1_counterexample :
    Hand.hand_sum ⟨[Card.Special Suit.Spades, Card.Joker 0]⟩ =
      HandSum.Win WinCondition.Special ∧
    Hand.hand_sum ⟨[Card.Special Suit.Spades, Card.Joker 0]⟩ ≠
      HandSum.Win WinCondition.Joker := by decide

/-- C1 (amended): a hand containing a Joker evaluates to `Win Joker`
provided every card before that Joker is Regular — in particular regardless
of the Regular cards and of anything after the Joker.  (If a Special card
precedes every Joker, the evaluation is `Win Special` instead, as the
counterexample shows.) -/
theorem c1_joker_win (h : Hand) (pre rest : List Card) (j : Nat)
    (hcards : h.cards = pre ++ Card.Joker j :: rest)
    (hpre : ∀ c ∈ pre, c.isReg = true) :
    h.hand_sum = HandSum.Win WinCondition.Joker := by
  rw [Hand.hand_sum, hcards]
  exact handSumGo_joker _ _ _ _ _ _ hpre

/-- C1 witness: `c1_joker_win` applied to a concrete 3-card hand. -/
theorem c1_witness :
    Hand.hand_sum ⟨[Card.Regular Suit.Hearts 3, Card.Joker 0,
      Card.Special Suit.Spades]⟩ = HandSum.Win WinCondition.Joker :=
  c1_joker_win _ [Card.Regular Suit.Hearts 3] [Card.Special Suit.Spades] 0
    rfl (by decide)

/-- C2 (counterexample): `can_accept` invoked on a winning hand (a hand
holding a Joker) with a Special card returns `true` normally instead of
panicking — the Joker/Special early return happens before the hand is
evaluated. -/
theorem c2_counterexample :
    Hand.hand_sum ⟨[Card.Joker 0]⟩ = HandSum.Win WinCondition.Joker ∧
    Hand.can_accept ⟨[Card.Joker 0]⟩ (Card.Special Suit.Hearts) = some true := by
  decide

/-- C2 (amended): on a hand whose evaluation is a Win state, `can_accept`
panics for every Regular card, but returns `true` normally for every
Special or Joker card (those return before the hand is evaluated). -/
theorem c2_can_accept_winning (h : Hand) (w : WinCondition)
    (hw : h.hand_sum = HandSum.Win w) :
    (∀ s n, h.can_accept (Card.Regular s n) = none) ∧
    (∀ s, h.can_accept (Card.Special s) = some true) ∧
    (∀ k, h.can_accept (Card.Joker k) = some true) := by
  refine ⟨fun s n => ?_, fun s => rfl, fun k => rfl⟩
  simp [Hand.can_accept, hw]

/-- C2 witness: `c2_can_accept_winning` applied to the hand `[Joker 0]`. -/
theorem c2_witness :
    Hand.can_accept ⟨[Card.Joker 0]⟩ (Card.Regular Suit.Spades 2) = none :=
  (c2_can_accept_winning ⟨[Card.Joker 0]⟩ WinCondition.Joker (by decide)).1
    Suit.Spades 2

/-- C3: a hand of exactly 5 cards, all Regular, evaluates to
`Win FiveCards` whatever the ranks sum to. -/
theorem c3_five_cards (h : Hand) (hlen : h.cards.length = 5)
    (hreg : ∀ c ∈ h.cards, c.isReg = true) :
    h.hand_sum = HandSum.Win WinCondition.FiveCards := by
  rw [Hand.hand_sum, handSumGo_regular _ _ _ _ hreg, hlen]
  simp

/-- C3 witness: `c3_five_cards` on a 5-card hand whose sum is 32 (neither
25 nor the ace-12 case). -/
theorem c3_witness :
    Hand.hand_sum ⟨[Card.Regular Suit.Spades 13, Card.Regular Suit.Hearts 13,
      Card.Regular Suit.Clubs 2, Card.Regular Suit.Diamonds 2,
      Card.Regular Suit.Spades 2]⟩ = HandSum.Win WinCondition.FiveCards :=
  c3_five_cards _ (by decide) (by decide)

/-- C4: on a hand evaluating to `NoWin sum`, `can_accept` returns `true`
for every Special and Joker card, and for a Regular card of rank `n` it
returns `true` exactly when `sum + n ≤ 25`. -/
theorem c4_can_accept_nowin (h : Hand) (sum : Nat)
    (hs : h.hand_sum = HandSum.NoWin sum) :
    (∀ s, h.can_accept (Card.Special s) = some true) ∧
    (∀ k, h.can_accept (Card.Joker k) = some true) ∧
    (∀ s n, h.can_accept (Card.Regular s n) = some true ↔ sum + n ≤ 25) := by
  refine ⟨fun s => rfl, fun k => rfl, fun s n => ?_⟩
  simp [Hand.can_accept, hs]

/-- C4 witness: a hand with sum 20 (`K + 7`) accepts rank 5 and rejects
rank 6, via `c4_can_accept_nowin`. -/
theorem c4_witness :
    Hand.can_accept ⟨[Card.Regular Suit.Spades 13, Card.Regular Suit.Hearts 7]⟩
      (Card.Regular Suit.Clubs 5) = some true ∧
    ¬ Hand.can_accept ⟨[Card.Regular Suit.Spades 13, Card.Regular Suit.Hearts 7]⟩
      (Card.Regular Suit.Clubs 6) = some true :=
  ⟨((c4_can_accept_nowin ⟨[Card.Regular Suit.Spades 13,
      Card.Regular Suit.Hearts 7]⟩ 20 (by decide)).2.2 Suit.Clubs 5).mpr
      (by decide),
   fun hc => by
    have := ((c4_can_accept_nowin ⟨[Card.Regular Suit.Spades 13,
      Card.Regular Suit.Hearts 7]⟩ 20 (by decide)).2.2 Suit.Clubs 6).mp hc
    omega⟩

/-- C5: `Card::new` panics exactly when the rank is outside `[1,13]`; for
ranks in range, exactly the two combinations (Diamonds, 12) and
(Spades, 11) produce the Special variant, and every other combination
produces `Regular` with the suit and rank preserved. -/
theorem c5_card_new (s : Suit) (n : Nat) :
    (Card.new s n = none ↔ (n = 0 ∨ 14 ≤ n)) ∧
    (1 ≤ n → n < 14 →
      (Card.new s n = some (Card.Special s) ↔
        (s = Suit.Diamonds ∧ n = 12) ∨ (s = Suit.Spades ∧ n = 11))) ∧
    (1 ≤ n → n < 14 →
      ¬((s = Suit.Diamonds ∧ n = 12) ∨ (s = Suit.Spades ∧ n = 11)) →
      Card.new s n = some (Card.Regular s n)) := by
  refine ⟨?_, ?_, ?_⟩
  · unfold Card.new
    split
    · rename_i hin
      simp only [reduceCtorEq, false_iff]
      omega
    · rename_i hout
      simp only [true_iff]
      omega
  · intro h1 h14
    unfold Card.new
    rw [if_pos ⟨h1, h14⟩]
    cases s <;> by_cases h12 : n = 12 <;> by_cases h11 : n = 11 <;>
      simp_all
  · intro h1 h14 hns
    unfold Card.new
    rw [if_pos ⟨h1, h14⟩]
    push_neg at hns
    cases s <;> by_cases h12 : n = 12 <;> by_cases h11 : n = 11 <;>
      simp_all

/-- C5 witness: `c5_card_new` at the Special combination (Diamonds, 12),
an ordinary combination (Hearts, 12) and an out-of-range rank 14. -/
theorem c5_witness :
    Card.new Suit.Diamonds 12 = some (Card.Special Suit.Diamonds) ∧
    Card.new Suit.Hearts 12 = some (Card.Regular Suit.Hearts 12) ∧
    Card.new Suit.Spades 14 = none :=
  ⟨((c5_card_new Suit.Diamonds 12).2.1 (by decide) (by decide)).mpr
      (Or.inl ⟨rfl, rfl⟩),
   (c5_card_new Suit.Hearts 12).2.2 (by decide) (by decide) (by decide),
   (c5_card_new Suit.Spades 14).1.mpr (Or.inr (by decide))⟩

/-- `Deck.pop` either finds an empty deck or removes the last card. -/
lemma Deck.pop_spec (d : Deck) :
    (d.cards = [] ∧ d.pop = (none, d)) ∨
    (∃ l c, d.cards = l ++ [c] ∧ d.pop = (some c, ⟨l⟩)) := by
  rcases List.eq_nil_or_concat d.cards with h | ⟨l, c, h⟩
  · exact Or.inl ⟨h, by simp [Deck.pop, h]⟩
  · exact Or.inr ⟨l, c, by simpa using h, by simp [Deck.pop, h]⟩

/-- A successful draw leaves players and round untouched and only moves
cards around: the drawn card plus the new deck and discard contents are a
permutation of the old deck and discard contents. -/
lemma pop_deck_some (f : List Card → List Card) (g : Game) (c : Card)
    (g1 : Game) (hf : ∀ l, (f l).Perm l)
    (h : g.pop_deck f = (some c, g1)) :
    g1.players = g.players ∧ g1.round = g.round ∧
    (g1.deck.cards ++ [c] ++ g1.discard.cards).Perm
      (g.deck.cards ++ g.discard.cards) := by
  unfold Game.pop_deck at h
  rcases Deck.pop_spec g.deck with ⟨hnil, hpop⟩ | ⟨l, c0, heq, hpop⟩
  · rw [hpop] at h
    rcases Deck.pop_spec (g.discard.shuffleWith f) with
      ⟨hnil2, hpop2⟩ | ⟨l2, c2, heq2, hpop2⟩
    · rw [hpop2] at h
      exact absurd h (by simp)
    · rw [hpop2] at h
      rw [Prod.mk.injEq] at h
      obtain ⟨h1, h2⟩ := h
      injection h1 with h1
      subst h2
      refine ⟨rfl, rfl, ?_⟩
      have hperm : (l2 ++ [c2]).Perm g.discard.cards := by
        have hp := hf g.discard.cards
        have he : f g.discard.cards = l2 ++ [c2] := heq2
        rw [he] at hp
        exact hp
      rw [← h1]
      simpa [hnil] using hperm
  · rw [hpop] at h
    rw [Prod.mk.injEq] at h
    obtain ⟨h1, h2⟩ := h
    injection h1 with h1
    subst h2
    refine ⟨rfl, rfl, ?_⟩
    rw [← h1, heq]

/-- C6: drawing with the deck empty and the discard pile non-empty recycles
the discard pile (the new deck holds one card less, the discard pile
becomes empty); with both empty, `step` signals exhaustion rather than a
contract violation. -/
theorem c6_recycle_exhaustion (g : Game) (f : List Card → List Card)
    (hf : ∀ l, (f l).Perm l) (hdeck : g.deck.cards = []) :
    (g.discard.cards ≠ [] →
      (g.pop_deck f).1.isSome = true ∧
      (g.pop_deck f).2.deck.cards.length + 1 = g.discard.cards.length ∧
      (g.pop_deck f).2.discard.cards = []) ∧
    (g.discard.cards = [] →
      ∀ strat, Game.step f strat g = StepOutcome.exhausted) := by
  have hpop1 : g.deck.pop = (none, g.deck) := by
    rcases Deck.pop_spec g.deck with ⟨-, hp⟩ | ⟨l, c, heq, -⟩
    · exact hp
    · rw [heq] at hdeck; simp at hdeck
  constructor
  · intro hnd
    rcases Deck.pop_spec (g.discard.shuffleWith f) with
      ⟨hnil2, hpop2⟩ | ⟨l2, c2, heq2, hpop2⟩
    · exfalso
      have : (f g.discard.cards).Perm g.discard.cards := hf _
      rw [show f g.discard.cards = [] from hnil2] at this
      exact hnd this.symm.eq_nil
    · have hres : g.pop_deck f =
          (some c2, { g with deck := ⟨l2⟩, discard := g.deck }) := by
        unfold Game.pop_deck
        rw [hpop1, hpop2]
      rw [hres]
      refine ⟨rfl, ?_, by simpa using hdeck⟩
      have hlen : (f g.discard.cards).length = g.discard.cards.length :=
        (hf _).length_eq
      rw [show f g.discard.cards = l2 ++ [c2] from heq2] at hlen
      simpa using hlen
  · intro hdis strat
    have hsh : (g.discard.shuffleWith f).cards = [] := by
      have : (f []).Perm [] := hf []
      simp [Deck.shuffleWith, hdis, this.eq_nil]
    have hpop2 : (g.discard.shuffleWith f).pop =
        (none, g.discard.shuffleWith f) := by
      rcases Deck.pop_spec (g.discard.shuffleWith f) with
        ⟨-, hp⟩ | ⟨l, c, heq, -⟩
      · exact hp
      · rw [heq] at hsh; simp at hsh
    unfold Game.step Game.pop_deck
    rw [hpop1, hpop2]

/-- C6 witness: `c6_recycle_exhaustion` with the identity shuffle, on a
state with an empty deck and a two-card discard pile (first conjunct), and
on the all-empty state (second conjunct). -/
theorem c6_witness :
    ((Game.pop_deck id ⟨⟨[]⟩, ⟨[Card.Joker 0, Card.Joker 1]⟩, [], 0⟩).1.isSome
        = true ∧
      (Game.pop_deck id
        ⟨⟨[]⟩, ⟨[Card.Joker 0, Card.Joker 1]⟩, [], 0⟩).2.deck.cards.length + 1
        = 2 ∧
      (Game.pop_deck id
        ⟨⟨[]⟩, ⟨[Card.Joker 0, Card.Joker 1]⟩, [], 0⟩).2.discard.cards = []) ∧
    Game.step id (fun _ _ _ => 0) ⟨⟨[]⟩, ⟨[]⟩, [], 0⟩ =
      StepOutcome.exhausted :=
  ⟨(c6_recycle_exhaustion ⟨⟨[]⟩, ⟨[Card.Joker 0, Card.Joker 1]⟩, [], 0⟩ id
      (fun l => List.Perm.refl l) rfl).1 (by decide),
   (c6_recycle_exhaustion ⟨⟨[]⟩, ⟨[]⟩, [], 0⟩ id
      (fun l => List.Perm.refl l) rfl).2 rfl (fun _ _ _ => 0)⟩

/-- Inversion for `Hand.accept`: success means the pre-check passed and the
card was appended. -/
lemma Hand.accept_some (h : Hand) (card : Card) (h' : Hand)
    (ha : h.accept card = some h') :
    h.can_accept card = some true ∧ h' = ⟨h.cards ++ [card]⟩ := by
  unfold Hand.accept at ha
  cases hca : h.can_accept card with
  | none => rw [hca] at ha; simp at ha
  | some b =>
    cases b
    · rw [hca] at ha; simp at ha
    · rw [hca] at ha
      refine ⟨rfl, ?_⟩
      injection ha with h1
      exact h1.symm

/-- `pop_deck` never touches the players or the round counter. -/
lemma pop_deck_frame (f : List Card → List Card) (g : Game)
    (oc : Option Card) (g1 : Game) (h : g.pop_deck f = (oc, g1)) :
    g1.players = g.players ∧ g1.round = g.round := by
  unfold Game.pop_deck at h
  rcases Deck.pop_spec g.deck with ⟨-, hpop⟩ | ⟨l, c0, -, hpop⟩
  · rw [hpop] at h
    rcases Deck.pop_spec (g.discard.shuffleWith f) with
      ⟨-, hpop2⟩ | ⟨l2, c2, -, hpop2⟩ <;>
    · rw [hpop2] at h
      rw [Prod.mk.injEq] at h
      rw [← h.2]
      exact ⟨rfl, rfl⟩
  · rw [hpop] at h
    rw [Prod.mk.injEq] at h
    rw [← h.2]
    exact ⟨rfl, rfl⟩

/-- Inversion for the resolution block (`Game::resolve`, main.rs lines
284-300): the three ways a round can resolve. -/
lemma resolve_ok (g1 : Game) (giver : Nat) (card : Card)
    (receiver : Option Nat) (r : RoundResult) (g' : Game)
    (h : g1.resolve giver card receiver = StepOutcome.ok r g') :
    r.giver = giver ∧ r.card = card ∧ r.receiver = receiver ∧
    g'.deck = g1.deck ∧ g'.round = g1.round + 1 ∧
    ((receiver = none ∧ r.win = none ∧ g'.players = g1.players ∧
        g'.discard = g1.discard.push card) ∨
     (∃ i s, receiver = some i ∧ card = Card.Special s ∧
        r.win = some WinCondition.Special ∧ g'.players = g1.players ∧
        g'.discard = g1.discard.push card) ∨
     (∃ i hi, receiver = some i ∧ (∀ s, card ≠ Card.Special s) ∧
        g1.players.get? i = some hi ∧ hi.can_accept card = some true ∧
        ((∃ cond, Hand.hand_sum ⟨hi.cards ++ [card]⟩ = HandSum.Win cond ∧
            r.win = some cond ∧
            g'.discard = ⟨g1.discard.cards ++ (hi.cards ++ [card])⟩ ∧
            g'.players = g1.players.set i ⟨[]⟩) ∨
         (∃ m, Hand.hand_sum ⟨hi.cards ++ [card]⟩ = HandSum.NoWin m ∧
            r.win = none ∧ g'.discard = g1.discard ∧
            g'.players = g1.players.set i ⟨hi.cards ++ [card]⟩)))) := by
  unfold Game.resolve at h
  split at h
  next i =>
    split at h
    next s =>
      injection h with h1 h2
      subst h1; subst h2
      exact ⟨rfl, rfl, rfl, rfl, rfl,
        Or.inr (Or.inl ⟨i, s, rfl, rfl, rfl, rfl, rfl⟩)⟩
    next hns =>
      have hns' : ∀ s, card ≠ Card.Special s := fun s hs => hns s hs
      split at h
      next => exact absurd h (by simp)
      next hi hget =>
        split at h
        next => exact absurd h (by simp)
        next hi' hacc =>
          obtain ⟨hca, rfl⟩ := Hand.accept_some _ _ _ hacc
          split at h
          next cond hsum =>
            dsimp only [Deck.take] at h
            injection h with h1 h2
            subst h1; subst h2
            exact ⟨rfl, rfl, rfl, rfl, rfl, Or.inr (Or.inr ⟨i, hi, rfl,
              hns', hget, hca, Or.inl ⟨cond, hsum, rfl, rfl, rfl⟩⟩)⟩
          next m hsum =>
            injection h with h1 h2
            subst h1; subst h2
            exact ⟨rfl, rfl, rfl, rfl, rfl, Or.inr (Or.inr ⟨i, hi, rfl,
              hns', hget, hca, Or.inr ⟨m, hsum, rfl, rfl, rfl⟩⟩)⟩
  next =>
    injection h with h1 h2
    subst h1; subst h2
    exact ⟨rfl, rfl, rfl, rfl, rfl, Or.inl ⟨rfl, rfl, rfl, rfl⟩⟩

/-- Inversion for `Game::step`: a successful step is a successful draw
followed by a receiver choice and a resolution. -/
lemma step_ok (f : List Card → List Card)
    (strat : Nat → List Hand → Card → Nat) (g : Game) (r : RoundResult)
    (g' : Game) (h : Game.step f strat g = StepOutcome.ok r g') :
    ∃ g1, g.pop_deck f = (some r.card, g1) ∧ g1.players.length ≠ 0 ∧
      ∃ receiver, chooseReceiver strat g1.players r.card r.card.isRed
          (g1.round % g1.players.length) = some receiver ∧
        g1.resolve (g1.round % g1.players.length) r.card receiver =
          StepOutcome.ok r g' := by
  unfold Game.step at h
  split at h
  next hpop => exact absurd h (by simp)
  next card g1 hpop =>
    split at h
    next => exact absurd h (by simp)
    next hlen =>
      split at h
      next => exact absurd h (by simp)
      next receiver hcr =>
        obtain ⟨-, hcard, -⟩ := resolve_ok g1 _ card receiver r g' h
        subst hcard
        exact ⟨g1, hpop, hlen, receiver, hcr, h⟩

/-- C7: in a step whose drawn card is Special and where a receiver was
chosen, the recorded win condition is Special, no player's hand changes
(the receiver's included), and the Special card ends on top of the discard
pile. -/
theorem c7_special_frame (f : List Card → List Card)
    (strat : Nat → List Hand → Card → Nat) (g : Game) (r : RoundResult)
    (g' : Game) (s : Suit) (i : Nat)
    (h : Game.step f strat g = StepOutcome.ok r g')
    (hcard : r.card = Card.Special s) (hrecv : r.receiver = some i) :
    r.win = some WinCondition.Special ∧ g'.players = g.players ∧
    g'.discard.cards.getLast? = some r.card := by
  obtain ⟨g1, hpop, hlen, receiver, hcr, hres⟩ := step_ok f strat g r g' h
  obtain ⟨hframe, -⟩ := pop_deck_frame f g _ g1 hpop
  obtain ⟨-, -, hr, -, -, hcase⟩ := resolve_ok _ _ _ _ _ _ hres
  rcases hcase with ⟨hnone, -⟩ | ⟨i', s', -, -, hwin, hpl, hdis⟩ |
    ⟨i', hi, -, hns, -⟩
  · rw [hnone] at hr
    rw [hr] at hrecv
    simp at hrecv
  · refine ⟨hwin, by rw [hpl, hframe], ?_⟩
    rw [hdis]
    simp [Deck.push, hcard]
  · exact absurd hcard (hns s)

/-- Replacing the `i`-th hand: as multisets, the new flat contents plus the
old hand equal the old flat contents plus the new hand. -/
lemma flatMap_set_coe (ps : List Hand) (i : Nat) (hi x : Hand)
    (hget : ps.get? i = some hi) :
    (((ps.set i x).flatMap Hand.cards : List Card) : Multiset Card) +
        (hi.cards : Multiset Card) =
      ((ps.flatMap Hand.cards : List Card) : Multiset Card) +
        (x.cards : Multiset Card) := by
  induction ps generalizing i with
  | nil => simp at hget
  | cons h0 rest ih =>
    cases i with
    | zero =>
      obtain rfl : h0 = hi := by
        have h1 : some h0 = some hi := hget
        injection h1
      simp only [List.set_cons_zero, List.flatMap_cons, ← Multiset.coe_add]
      abel
    | succ i =>
      have hih := ih i hget
      simp only [List.set_cons_succ, List.flatMap_cons, ← Multiset.coe_add]
      rw [add_assoc, hih]
      abel

/-- One successful step permutes the overall card contents: nothing is
created or lost. -/
lemma step_allCards (f : List Card → List Card)
    (strat : Nat → List Hand → Card → Nat) (g : Game) (r : RoundResult)
    (g' : Game) (hf : ∀ l, (f l).Perm l)
    (h : Game.step f strat g = StepOutcome.ok r g') :
    g'.allCards.Perm g.allCards := by
  obtain ⟨g1, hpop, -, receiver, -, hres⟩ := step_ok f strat g r g' h
  obtain ⟨hpl, -, hperm⟩ := pop_deck_some f g _ g1 hf hpop
  obtain ⟨-, -, -, hdeck, -, hcase⟩ := resolve_ok _ _ _ _ _ _ hres
  rw [← Multiset.coe_eq_coe]
  have hmid : (g1.deck.cards : Multiset Card) + {r.card} +
      (g1.discard.cards : Multiset Card) =
      (g.deck.cards : Multiset Card) + (g.discard.cards : Multiset Card) := by
    have hc := Multiset.coe_eq_coe.mpr hperm
    simp only [← Multiset.coe_add, Multiset.coe_singleton] at hc
    exact hc
  have hpl' : ((g1.players.flatMap Hand.cards : List Card) : Multiset Card) =
      ((g.players.flatMap Hand.cards : List Card) : Multiset Card) := by
    rw [hpl]
  rcases hcase with ⟨-, -, hplayers, hdis⟩ | ⟨i, s, -, -, -, hplayers, hdis⟩ |
    ⟨i, hi, -, -, hget, -, hinner⟩
  · simp only [Game.allCards, hdeck, hdis, hplayers, Deck.push,
      ← Multiset.coe_add, Multiset.coe_singleton]
    rw [← hmid, ← hpl']
    abel
  · simp only [Game.allCards, hdeck, hdis, hplayers, Deck.push,
      ← Multiset.coe_add, Multiset.coe_singleton]
    rw [← hmid, ← hpl']
    abel
  · rcases hinner with ⟨cond, -, -, hdis, hplayers⟩ | ⟨m, -, -, hdis, hplayers⟩
    · have hset := flatMap_set_coe g1.players i hi ⟨[]⟩ hget
      have hset' : ((g1.players.flatMap Hand.cards : List Card) :
            Multiset Card) =
          (((g1.players.set i ⟨[]⟩).flatMap Hand.cards : List Card) :
            Multiset Card) + (hi.cards : Multiset Card) := by
        simpa using hset.symm
      simp only [Game.allCards, hdeck, hdis, hplayers,
        ← Multiset.coe_add, Multiset.coe_singleton]
      rw [← hmid, ← hpl', hset']
      abel
    · have hset := flatMap_set_coe g1.players i hi ⟨hi.cards ++ [r.card]⟩ hget
      have hset' : (((g1.players.set i ⟨hi.cards ++ [r.card]⟩).flatMap
            Hand.cards : List Card) : Multiset Card) =
          ((g1.players.flatMap Hand.cards : List Card) : Multiset Card) +
            {r.card} := by
        simp only [← Multiset.coe_add, Multiset.coe_singleton] at hset
        have h3 : (((g1.players.set i ⟨hi.cards ++ [r.card]⟩).flatMap
              Hand.cards : List Card) : Multiset Card) +
              (hi.cards : Multiset Card) =
            (((g1.players.flatMap Hand.cards : List Card) : Multiset Card) +
              {r.card}) + (hi.cards : Multiset Card) := by
          rw [hset]; abel
        exact add_right_cancel h3
      simp only [Game.allCards, hdeck, hdis, hplayers,
        ← Multiset.coe_add, Multiset.coe_singleton]
      rw [← hmid, ← hpl', hset']
      abel

/-- The standard deck is the 52 suit cards followed by the jokers. -/
lemma deck_new_cards (j : Nat) :
    (Deck.new j).cards = (Deck.new 0).cards ++ (List.range j).map Card.Joker := by
  simp [Deck.new]

/-- `Deck::new` produces `52 + jokers` cards. -/
lemma deck_new_length (j : Nat) : (Deck.new j).cards.length = 52 + j := by
  rw [deck_new_cards, List.length_append, List.length_map, List.length_range]
  have h52 : (Deck.new 0).cards.length = 52 := by decide
  omega

/-- Every reachable state's cards are a permutation of the initial deck. -/
lemma reachable_allCards (p j : Nat) (g : Game) (hg : Reachable p j g) :
    g.allCards.Perm (Deck.new j).cards := by
  induction hg with
  | init =>
    have hfm : (List.replicate p Hand.new).flatMap Hand.cards = [] := by
      induction p with
      | zero => rfl
      | succ p ih => simp [List.replicate_succ, Hand.new, ih]
    simp only [Game.allCards, Game.new, Deck.empty, hfm]
    simp
  | shuffle f hfp hr ih =>
    refine List.Perm.trans ?_ ih
    simp only [Game.allCards, Game.shuffleWith, Deck.shuffleWith]
    exact ((hfp _).append_right _).append_right _
  | step f strat r hfp hr hstep ih =>
    exact (step_allCards _ _ _ _ _ hfp hstep).trans ih

/-- C8: in every reachable state the multiset of cards across deck, discard
pile and all hands equals the initial `52 + jokers` cards — `step` neither
duplicates nor loses a card. -/
theorem c8_conservation (p j : Nat) (g : Game) (hg : Reachable p j g) :
    g.allCards.Perm (Deck.new j).cards ∧ g.allCards.length = 52 + j := by
  have hperm := reachable_allCards p j g hg
  exact ⟨hperm, by rw [hperm.length_eq, deck_new_length]⟩

/-- C8 witness: `c8_conservation` at the freshly constructed 2-player,
0-joker game. -/
theorem c8_witness :
    (Game.new 2 0).allCards.Perm (Deck.new 0).cards ∧
    (Game.new 2 0).allCards.length = 52 + 0 :=
  c8_conservation 2 0 (Game.new 2 0) Reachable.init

/-- C7 witness: a one-player game whose deck holds only the Special
diamond; the step routes it to player 0, records `Win Special`, leaves the
hand untouched and discards the card. -/
theorem c7_witness :
    (⟨0, some 0, Card.Special Suit.Diamonds, some WinCondition.Special⟩ :
        RoundResult).win = some WinCondition.Special ∧
    (⟨⟨[]⟩, ⟨[Card.Special Suit.Diamonds]⟩, [⟨[]⟩], 1⟩ : Game).players =
      (⟨⟨[Card.Special Suit.Diamonds]⟩, ⟨[]⟩, [⟨[]⟩], 0⟩ : Game).players ∧
    (⟨⟨[]⟩, ⟨[Card.Special Suit.Diamonds]⟩, [⟨[]⟩], 1⟩ :
        Game).discard.cards.getLast? =
      some (⟨0, some 0, Card.Special Suit.Diamonds,
        some WinCondition.Special⟩ : RoundResult).card :=
  c7_special_frame id (fun _ _ _ => 0)
    ⟨⟨[Card.Special Suit.Diamonds]⟩, ⟨[]⟩, [⟨[]⟩], 0⟩
    ⟨0, some 0, Card.Special Suit.Diamonds, some WinCondition.Special⟩
    ⟨⟨[]⟩, ⟨[Card.Special Suit.Diamonds]⟩, [⟨[]⟩], 1⟩
    Suit.Diamonds 0 (by decide) rfl rfl

/-- `ordSum` distributes over append. -/
lemma ordSum_append (l₁ l₂ : List Card) :
    ordSum (l₁ ++ l₂) = ordSum l₁ + ordSum l₂ := by
  induction l₁ with
  | nil => simp [ordSum]
  | cons c l ih =>
    cases c with
    | Regular s n =>
      show n + ordSum (l ++ l₂) = n + ordSum l + ordSum l₂
      rw [ih, Nat.add_assoc]
    | Joker k =>
      show ordSum (l ++ l₂) = ordSum l + ordSum l₂
      exact ih
    | Special s =>
      show ordSum (l ++ l₂) = ordSum l + ordSum l₂
      exact ih

/-- The empty hand satisfies the engine invariant. -/
lemma handInv_nil : HandInv ⟨[]⟩ :=
  ⟨by decide, by decide, by decide⟩

/-- One successful step preserves the per-hand invariant on every hand. -/
lemma step_inv (f : List Card → List Card)
    (strat : Nat → List Hand → Card → Nat) (g : Game) (r : RoundResult)
    (g' : Game) (h : Game.step f strat g = StepOutcome.ok r g')
    (hinv : ∀ h0 ∈ g.players, HandInv h0) :
    ∀ h0 ∈ g'.players, HandInv h0 := by
  obtain ⟨g1, hpop, -, receiver, -, hres⟩ := step_ok f strat g r g' h
  obtain ⟨hpl, -⟩ := pop_deck_frame f g _ g1 hpop
  obtain ⟨-, -, -, -, -, hcase⟩ := resolve_ok _ _ _ _ _ _ hres
  have hinv1 : ∀ h0 ∈ g1.players, HandInv h0 := by rw [hpl]; exact hinv
  rcases hcase with ⟨-, -, hplayers, -⟩ | ⟨i, s, -, -, -, hplayers, -⟩ |
    ⟨i, hi, -, hns, hget, hca, hinner⟩
  · rw [hplayers]; exact hinv1
  · rw [hplayers]; exact hinv1
  · have hhiInv : HandInv hi := hinv1 hi (List.get?_mem hget)
    rcases hinner with ⟨cond, hsum, -, -, hplayers⟩ | ⟨m, hsum, -, -, hplayers⟩
    · rw [hplayers]
      intro h0 hmem
      rcases List.mem_or_eq_of_mem_set hmem with hmem | rfl
      · exact hinv1 h0 hmem
      · exact handInv_nil
    · rw [hplayers]
      intro h0 hmem
      rcases List.mem_or_eq_of_mem_set hmem with hmem | rfl
      · exact hinv1 h0 hmem
      · -- the receiving hand: analyse the accepted card
        have hsum' : handSumGo (hi.cards ++ [r.card]).length
            (hi.cards ++ [r.card]) 0 0 = HandSum.NoWin m := hsum
        obtain ⟨hreg, hm, hlen5, hm25, -⟩ :=
          handSumGo_noWin _ _ _ _ _ hsum'
        have hcreg : (r.card).isReg = true :=
          hreg r.card (List.mem_append_right _ (List.mem_singleton_self _))
        obtain ⟨s0, n0, hcard⟩ : ∃ s0 n0, r.card = Card.Regular s0 n0 := by
          cases hc : r.card with
          | Regular s0 n0 => exact ⟨s0, n0, rfl⟩
          | Joker k => rw [hc] at hcreg; simp [Card.isReg] at hcreg
          | Special s0 => rw [hc] at hcreg; simp [Card.isReg] at hcreg
        -- the accept precondition bounds the new sum
        have hsum_hi : hi.hand_sum = HandSum.NoWin (ordSum hi.cards) :=
          hhiInv.1
        have hb : ordSum hi.cards + n0 ≤ 25 := by
          rw [hcard] at hca
          unfold Hand.can_accept at hca
          rw [hsum_hi] at hca
          simpa using hca
        have hordeq : ordSum (hi.cards ++ [r.card]) =
            ordSum hi.cards + n0 := by
          rw [hcard, ordSum_append]; simp [ordSum]
        refine ⟨?_, ?_, ?_⟩
        · rw [hsum, hm, Nat.zero_add]
        · show ordSum (hi.cards ++ [r.card]) ≤ 24
          have hmeq : m = ordSum hi.cards + n0 := by
            rw [hm, Nat.zero_add, hordeq]
          rw [hordeq]
          omega
        · show (hi.cards ++ [r.card]).length ≤ 4
          have hlen : (hi.cards ++ [r.card]).length =
              hi.cards.length + 1 := by simp
          rw [hlen]
          rw [hlen] at hlen5
          have := hhiInv.2.2
          omega

/-- Every reachable state satisfies the per-hand invariant. -/
lemma reachable_inv (p j : Nat) (g : Game) (hg : Reachable p j g) :
    ∀ h0 ∈ g.players, HandInv h0 := by
  induction hg with
  | init =>
    intro h0 hmem
    have : h0 = Hand.new := List.eq_of_mem_replicate hmem
    rw [this]
    exact handInv_nil
  | shuffle f hfp hr ih => exact ih
  | step f strat r hfp hr hstep ih => exact step_inv _ _ _ _ _ hstep ih

/-- C9: at step boundaries every reachable hand evaluates to `NoWin` (a
winning hand is emptied within the step that created it), so `can_accept`
never panics on an engine-managed hand. -/
theorem c9_hands_nowin (p j : Nat) (g : Game) (hg : Reachable p j g)
    (h0 : Hand) (hmem : h0 ∈ g.players) :
    h0.hand_sum = HandSum.NoWin (ordSum h0.cards) ∧
    ∀ c, (h0.can_accept c).isSome = true := by
  obtain ⟨h1, -, -⟩ := reachable_inv p j g hg h0 hmem
  refine ⟨h1, fun c => ?_⟩
  cases c with
  | Regular s n => simp [Hand.can_accept, h1]
  | Joker k => rfl
  | Special s => rfl

/-- C9 witness: `c9_hands_nowin` at the freshly constructed one-player
game, on its (empty) hand and a Regular card. -/
theorem c9_witness :
    Hand.hand_sum Hand.new = HandSum.NoWin (ordSum Hand.new.cards) ∧
    (Hand.can_accept Hand.new (Card.Regular Suit.Spades 3)).isSome = true :=
  ⟨(c9_hands_nowin 1 0 (Game.new 1 0) Reachable.init Hand.new (by decide)).1,
   (c9_hands_nowin 1 0 (Game.new 1 0) Reachable.init Hand.new (by decide)).2
      (Card.Regular Suit.Spades 3)⟩

/-- Every card of the standard deck has a rank in `[1,13]` when Regular. -/
lemma deck_new_rank (j : Nat) (c : Card) (hc : c ∈ (Deck.new j).cards)
    (s : Suit) (n : Nat) (hreg : c = Card.Regular s n) : 1 ≤ n ∧ n ≤ 13 := by
  rw [deck_new_cards] at hc
  rcases List.mem_append.mp hc with hc | hc
  · have hall : ((Deck.new 0).cards.all rankOk) = true := by decide
    have : rankOk c = true := List.all_eq_true.mp hall c hc
    rw [hreg] at this
    simpa [rankOk] using this
  · obtain ⟨k, -, hk⟩ := List.mem_map.mp hc
    rw [hreg] at hk
    cases hk

/-- C10: in every reachable state the Regular-rank sum of every hand is at
most 25, every prefix sum is as well, the ranks of held cards are at most
13, and the sums computed by `can_accept`/`hand_sum` stay below `2^8`, so
the Rust `u8` additions cannot overflow. -/
theorem c10_sum_bound (p j : Nat) (g : Game) (hg : Reachable p j g)
    (h0 : Hand) (hmem : h0 ∈ g.players) :
    ordSum h0.cards ≤ 25 ∧
    (∀ pre suf, h0.cards = pre ++ suf → ordSum pre ≤ 25) ∧
    (∀ c ∈ h0.cards, ∀ s n, c = Card.Regular s n → n ≤ 13) ∧
    (∀ n, n ≤ 13 → ordSum h0.cards + n < 2 ^ 8) := by
  obtain ⟨-, hsum24, -⟩ := reachable_inv p j g hg h0 hmem
  refine ⟨by omega, ?_, ?_, by intro n hn; omega⟩
  · intro pre suf hsplit
    have := ordSum_append pre suf
    rw [← hsplit] at this
    omega
  · intro c hc s n hreg
    have hmemAll : c ∈ g.allCards := by
      unfold Game.allCards
      refine List.mem_append_right _ ?_
      exact List.mem_flatMap.mpr ⟨h0, hmem, hc⟩
    have hdeckMem : c ∈ (Deck.new j).cards :=
      (reachable_allCards p j g hg).mem_iff.mp hmemAll
    exact (deck_new_rank j c hdeckMem s n hreg).2

/-- C10 witness: `c10_sum_bound` at the freshly constructed one-player
game, on its (empty) hand and the maximal rank 13. -/
theorem c10_witness :
    ordSum Hand.new.cards ≤ 25 ∧ ordSum Hand.new.cards + 13 < 2 ^ 8 :=
  ⟨(c10_sum_bound 1 0 (Game.new 1 0) Reachable.init Hand.new (by decide)).1,
   (c10_sum_bound 1 0 (Game.new 1 0) Reachable.init Hand.new (by decide)).2.2.2
     13 (by decide)⟩
